import Mathlib

set_option maxHeartbeats 1000000

/-!
Verification development for the `async-trait` attribute macro crate.

The repository ships `src/lib.rs` (the crate documentation and the
`async_trait` proc-macro entry point); the entry point delegates to the
crate-private modules `parse`, `receiver`, `lifetime` and `expand`, whose
sources are not present here.  Following the crate documentation and the
design specification, those components are modelled below as executable
Lean functions: declaration parsing, receiver-shape classification,
borrow-scope (lifetime) elaboration, capability-bound injection, the
expansion of asynchronous methods into an outer synchronous method plus a
private inner asynchronous freestanding function, and a token-level
rendering of the emitted code.
-/

namespace AsyncTrait

/-- A borrow-scope (lifetime) marker attached to a reference-shaped type:
either a named scope (a named lifetime such as the generated call scope)
or the elision placeholder (the underscore lifetime). -/
inductive ScopeMarker where
| named (s : String)
| placeholder
deriving DecidableEq

/-- Modelled from the spec: tree-shaped type expressions of the missing
`parse` module's data model (spec section 3, MethodSignature).  A type is
the unit type, the receiver type `Self`, a plain named type, a generic
application, a reference with an optional scope marker and mutability, or
a user-declared alias that expands to a reference and carries an optional
scope argument (`aliasRef _ Option.none` is the opaque case whose hidden
reference is not syntactically visible). -/
inductive TypeExpr where
| unit
| selfTy
| base (name : String)
| app (head : String) (arg : TypeExpr)
| ref (scope : Option ScopeMarker) (mutable : Bool) (inner : TypeExpr)
| aliasRef (name : String) (scope : Option ScopeMarker)
deriving DecidableEq

/-- Modelled from the spec: one step of the missing `lifetime` module's
borrow-scope elaborator (spec section 4.3).  Every reference-shaped
subexpression lacking an explicit named scope (a bare reference, or one
marked with the placeholder) is rewritten to the generated call scope
`cs`; an alias hiding a reference with no scope argument at all cannot be
rewritten structurally and is rejected. -/
def elabType (cs : String) : TypeExpr → Except Unit TypeExpr
| TypeExpr.unit => Except.ok TypeExpr.unit
| TypeExpr.selfTy => Except.ok TypeExpr.selfTy
| TypeExpr.base n => Except.ok (TypeExpr.base n)
| TypeExpr.app h a => do
    let a2 ← elabType cs a
    Except.ok (TypeExpr.app h a2)
| TypeExpr.ref Option.none m t => do
    let t2 ← elabType cs t
    Except.ok (TypeExpr.ref (some (ScopeMarker.named cs)) m t2)
| TypeExpr.ref (some ScopeMarker.placeholder) m t => do
    let t2 ← elabType cs t
    Except.ok (TypeExpr.ref (some (ScopeMarker.named cs)) m t2)
| TypeExpr.ref (some (ScopeMarker.named s)) m t => do
    let t2 ← elabType cs t
    Except.ok (TypeExpr.ref (some (ScopeMarker.named s)) m t2)
| TypeExpr.aliasRef _ Option.none => Except.error ()
| TypeExpr.aliasRef n (some ScopeMarker.placeholder) =>
    Except.ok (TypeExpr.aliasRef n (some (ScopeMarker.named cs)))
| TypeExpr.aliasRef n (some (ScopeMarker.named s)) =>
    Except.ok (TypeExpr.aliasRef n (some (ScopeMarker.named s)))

/-- Number of elided borrow-scope occurrences in a type: references whose
scope is implicit or the placeholder, and alias applications whose scope
argument is the placeholder. -/
def countElided : TypeExpr → Nat
| TypeExpr.unit => 0
| TypeExpr.selfTy => 0
| TypeExpr.base _ => 0
| TypeExpr.app _ a => countElided a
| TypeExpr.ref Option.none _ t => countElided t + 1
| TypeExpr.ref (some ScopeMarker.placeholder) _ t => countElided t + 1
| TypeExpr.ref (some (ScopeMarker.named _)) _ t => countElided t
| TypeExpr.aliasRef _ Option.none => 0
| TypeExpr.aliasRef _ (some ScopeMarker.placeholder) => 1
| TypeExpr.aliasRef _ (some (ScopeMarker.named _)) => 0

/-- Number of reference-shaped occurrences carrying the explicit named
scope `cs`. -/
def countScope (cs : String) : TypeExpr → Nat
| TypeExpr.unit => 0
| TypeExpr.selfTy => 0
| TypeExpr.base _ => 0
| TypeExpr.app _ a => countScope cs a
| TypeExpr.ref Option.none _ t => countScope cs t
| TypeExpr.ref (some ScopeMarker.placeholder) _ t => countScope cs t
| TypeExpr.ref (some (ScopeMarker.named s)) _ t =>
    (if s = cs then 1 else 0) + countScope cs t
| TypeExpr.aliasRef _ Option.none => 0
| TypeExpr.aliasRef _ (some ScopeMarker.placeholder) => 0
| TypeExpr.aliasRef _ (some (ScopeMarker.named s)) => if s = cs then 1 else 0

/-- A type is fully scoped when every reference-shaped occurrence
reachable in it carries an explicit named scope. -/
def fullyScoped : TypeExpr → Bool
| TypeExpr.unit => true
| TypeExpr.selfTy => true
| TypeExpr.base _ => true
| TypeExpr.app _ a => fullyScoped a
| TypeExpr.ref (some (ScopeMarker.named _)) _ t => fullyScoped t
| TypeExpr.ref _ _ _ => false
| TypeExpr.aliasRef _ (some (ScopeMarker.named _)) => true
| TypeExpr.aliasRef _ _ => false

/-- A type contains an opaque alias: an alias expanding to a reference
used with no scope argument at all, hence not structurally rewritable. -/
def hasOpaqueAlias : TypeExpr → Bool
| TypeExpr.unit => false
| TypeExpr.selfTy => false
| TypeExpr.base _ => false
| TypeExpr.app _ a => hasOpaqueAlias a
| TypeExpr.ref _ _ t => hasOpaqueAlias t
| TypeExpr.aliasRef _ Option.none => true
| TypeExpr.aliasRef _ (some _) => false

/-- A non-receiver method parameter: a name, a type expression and the
source span at which the parameter appears. -/
structure Param where
  name : String
  ty : TypeExpr
  span : Nat
deriving DecidableEq

/-- A lexical token of the emitted stream.  The `unsafe` keyword is
lexed as its own token, distinct from every identifier. -/
inductive Tok where
| unsafeKw
| ident (s : String)
| sym (s : String)
| lifetimeTok (s : String)
deriving DecidableEq

/-- Modelled from the spec: a method of a contract or implementation as
produced by the missing `parse` module (spec section 3,
MethodSignature).  The receiver, when present, is the method's first
parameter together with its declared type; `body` is the verbatim token
blob of the default body, absent for contract-only declarations. -/
structure Method where
  name : String
  isAsync : Bool
  generics : List String
  attrs : List String
  docs : List String
  whereClauses : List String
  receiver : Option (String × TypeExpr)
  recvSpan : Nat
  params : List Param
  returnType : TypeExpr
  retSpan : Nat
  body : Option (List Tok)
deriving DecidableEq

/-- The receiver shapes distinguished by the receiver classifier. -/
inductive Receiver where
| byValue
| byReference
| byMutableReference
| none
deriving DecidableEq

/-- Modelled from the spec: the missing `receiver` module's classifier
(spec section 4.2).  Given the method's first parameter (if any) and its
declared type it applies, in priority order: no first parameter named as
a self-reference gives `none`; the bare receiver type gives `byValue`;
an immutable reference to the receiver type gives `byReference`; a
mutable reference gives `byMutableReference`.  A first parameter named
`self` at any other type is malformed and rejected upstream by the host
grammar; that branch surfaces here as the error case. -/
def classifyReceiver : Option (String × TypeExpr) → Except Unit Receiver
| Option.none => Except.ok Receiver.none
| some (n, t) =>
    if n = "self" then
      match t with
      | TypeExpr.selfTy => Except.ok Receiver.byValue
      | TypeExpr.ref _ false TypeExpr.selfTy => Except.ok Receiver.byReference
      | TypeExpr.ref _ true TypeExpr.selfTy =>
          Except.ok Receiver.byMutableReference
      | _ => Except.error ()
    else Except.ok Receiver.none

/-- A first parameter is a well-formed receiver position when, if it is
named `self`, its declared type is one of the three receiver shapes the
host grammar accepts. -/
def wellFormedReceiver : Option (String × TypeExpr) → Bool
| Option.none => true
| some (n, t) =>
    if n = "self" then
      match t with
      | TypeExpr.selfTy => true
      | TypeExpr.ref _ _ TypeExpr.selfTy => true
      | _ => false
    else true

/-- Structured diagnostic records produced by the transformer: a
malformed attribute target (with a human-readable message), an
unrecognized configuration argument, or a borrow scope that cannot be
elaborated structurally; each carries the offending source span. -/
inductive Diagnostic where
| malformedTarget (message : String) (span : Nat)
| invalidConfiguration (span : Nat)
| ambiguousBorrowScope (span : Nat)
deriving DecidableEq

/-- Modelled from the spec: the fresh scope name the elaborator
synthesizes for one method, unique within that method's generic scope
(the crate documentation spells it `'async`). -/
def callScope (_m : Method) : String := "async"

/-- Elaborate a list of parameters left to right; the first parameter
whose type hides an opaque alias aborts elaboration with an
`ambiguousBorrowScope` diagnostic at that parameter's span. -/
def elabParams (cs : String) : List Param → Except Diagnostic (List Param)
| [] => Except.ok []
| p :: ps =>
    match elabType cs p.ty with
    | Except.error _ => Except.error (Diagnostic.ambiguousBorrowScope p.span)
    | Except.ok t2 => do
        let ps2 ← elabParams cs ps
        Except.ok ({ p with ty := t2 } :: ps2)

/-- The outcome of borrow-scope elaboration on one method: the rewritten
receiver, parameters and return type, plus the list of newly introduced
scope parameters to be appended to the method's generic parameter
list. -/
structure ElabResult where
  receiver : Option (String × TypeExpr)
  params : List Param
  returnType : TypeExpr
  newScopeParams : List String
deriving DecidableEq

/-- Modelled from the spec: the missing `lifetime` module's signature
elaboration (spec section 4.3).  It walks every parameter type and the
return type, rewrites every scope-elided occurrence to the one generated
call scope `cs`, binds the receiver's own implicit scope to the same
call scope, and reports the single newly introduced scope parameter. -/
def elabSignature (cs : String) (m : Method) : Except Diagnostic ElabResult :=
  match elabParams cs m.params with
  | Except.error e => Except.error e
  | Except.ok ps2 =>
      match elabType cs m.returnType with
      | Except.error _ =>
          Except.error (Diagnostic.ambiguousBorrowScope m.retSpan)
      | Except.ok ret2 =>
          match m.receiver with
          | Option.none =>
              Except.ok ⟨Option.none, ps2, ret2, [cs]⟩
          | some (n, t) =>
              match elabType cs t with
              | Except.error _ =>
                  Except.error (Diagnostic.ambiguousBorrowScope m.recvSpan)
              | Except.ok t2 => Except.ok ⟨some (n, t2), ps2, ret2, [cs]⟩

/-- Write an elaboration result back into a method signature, leaving
every other syntactic element untouched. -/
def applyElab (m : Method) (r : ElabResult) : Method :=
  { m with receiver := r.receiver, params := r.params,
           returnType := r.returnType }

/-- The capability bounds the expansion engine may inject on the
receiving type, each scoped to the call scope: thread-shareable is the
`Self: Sync + 'cs` bound, thread-movable is the `Self: Send + 'cs`
bound. -/
inductive CapabilityBound where
| threadShareable (scope : String)
| threadMovable (scope : String)
deriving DecidableEq

/-- Modelled from the spec: capability-bound selection of the missing
`expand` module (spec section 4.4, step 3).  A total function of the
`local` flag, the receiver shape and default-body presence: in local
mode nothing is injected; a by-reference receiver with a default body
gets the thread-shareable bound, a by-mutable-reference receiver with a
default body gets the thread-movable bound; every other combination gets
no extra bound. -/
def injectedBound (cs : String) (localFlag : Bool) (shape : Receiver)
    (hasDefaultBody : Bool) : Option CapabilityBound :=
  if localFlag then Option.none
  else
    match shape, hasDefaultBody with
    | Receiver.byReference, true => some (CapabilityBound.threadShareable cs)
    | Receiver.byMutableReference, true =>
        some (CapabilityBound.threadMovable cs)
    | _, _ => Option.none

/-- The rewritten return type of an expanded method: a heap-owned,
dynamically-dispatched handle to a deferred computation of `output`
(rendered `Pin<Box<dyn Future<Output = output> + Send + 'scope>>`),
thread-movable when `threadMovable` is set and bounded by the call
scope `scope`. -/
structure HandleType where
  output : TypeExpr
  threadMovable : Bool
  scope : String
deriving DecidableEq

/-- The single expression that becomes the outer method's body: a call
of the inner function `callee` on the listed argument names, wrapped in
the heap-owned handle (rendered `Pin::from(Box::new(callee(args)))`). -/
structure CallWrapExpr where
  callee : String
  args : List String
deriving DecidableEq

/-- The outer synchronous method an asynchronous method is rewritten
into: the original syntactic elements, the generic parameters extended
with the scope parameters the elaborator introduced, the elaborated
receiver and parameters, the handle return type, the optional injected
capability bound, and, when the original had a default body, the single
wrapping call expression. -/
structure OuterMethod where
  name : String
  isAsync : Bool
  generics : List String
  attrs : List String
  docs : List String
  whereClauses : List String
  injectedBound : Option CapabilityBound
  receiver : Option (String × TypeExpr)
  params : List Param
  returnType : HandleType
  body : Option CallWrapExpr
deriving DecidableEq

/-- The private inner asynchronous freestanding function holding the
original body: same generic parameters as the elaborated outer
signature, a renamed first parameter at the receiver's underlying
concrete type, the original non-receiver parameters, the original
return type and the original body verbatim. -/
structure InnerFn where
  name : String
  isAsync : Bool
  generics : List String
  firstParam : Option (String × TypeExpr)
  params : List Param
  returnType : TypeExpr
  body : List Tok
deriving DecidableEq

/-- One method of the expanded output: either an untouched original
method (synchronous methods pass through byte-for-byte) or a rewritten
pair of outer method and, when a default body existed, inner
function. -/
inductive ExpandedMethod where
| unchanged (m : Method)
| rewritten (outer : OuterMethod) (inner : Option InnerFn)
deriving DecidableEq

/-- Substitute the receiver type for `Self` inside a receiver's declared
type, producing the inner function's first-parameter type (the
receiver's underlying concrete-type reference). -/
def substSelf (concrete : TypeExpr) : TypeExpr → TypeExpr
| TypeExpr.selfTy => concrete
| TypeExpr.ref sc b t => TypeExpr.ref sc b (substSelf concrete t)
| t => t

/-- The inner function's first parameter: the receiver renamed
internally to `_self`, at the receiver's declared type with `Self`
replaced by the underlying concrete type. -/
def innerFirstParam (concrete : TypeExpr) :
    Option (String × TypeExpr) → Option (String × TypeExpr)
| Option.none => Option.none
| some (_, t) => some ("_self", substSelf concrete t)

/-- Modelled from the spec: the per-method work of the missing `expand`
module (spec section 4.4).  A synchronous method is left untouched.  An
asynchronous method is classified, its signature elaborated, the
capability bound selected, its return type rewritten to the handle type
(thread-movable unless in local mode), and, when a default body is
present, the body moved verbatim into a private inner asynchronous
function that the new single-expression outer body calls and wraps. -/
def expandMethod (localFlag : Bool) (concrete : TypeExpr) (m : Method) :
    Except Diagnostic ExpandedMethod :=
  if m.isAsync then
    match classifyReceiver m.receiver with
    | Except.error _ =>
        Except.error (Diagnostic.malformedTarget "malformed method receiver"
          m.recvSpan)
    | Except.ok shape =>
        match elabSignature (callScope m) m with
        | Except.error e => Except.error e
        | Except.ok r =>
            let outer : OuterMethod :=
              { name := m.name
                isAsync := false
                generics := m.generics ++ r.newScopeParams
                attrs := m.attrs
                docs := m.docs
                whereClauses := m.whereClauses
                injectedBound :=
                  injectedBound (callScope m) localFlag shape m.body.isSome
                receiver := r.receiver
                params := r.params
                returnType :=
                  { output := r.returnType
                    threadMovable := !localFlag
                    scope := callScope m }
                body := m.body.map fun _ =>
                  { callee := m.name
                    args :=
                      (match m.receiver with
                       | Option.none => []
                       | some _ => ["self"]) ++ m.params.map Param.name } }
            let inner : Option InnerFn := m.body.map fun b =>
              { name := m.name
                isAsync := true
                generics := outer.generics
                firstParam := innerFirstParam concrete m.receiver
                params := m.params
                returnType := m.returnType
                body := b }
            Except.ok (ExpandedMethod.rewritten outer inner)
  else Except.ok (ExpandedMethod.unchanged m)

/-- Expand an ordered sequence of methods, each independently, stopping
at the first diagnostic. -/
def expandMethods (localFlag : Bool) (concrete : TypeExpr) :
    List Method → Except Diagnostic (List ExpandedMethod)
| [] => Except.ok []
| m :: ms => do
    let e ← expandMethod localFlag concrete m
    let es ← expandMethods localFlag concrete ms
    Except.ok (e :: es)

/-- Every syntactic element of a contract declaration other than its
methods: name, generic parameters, supertrait bounds, attributes other
than the driving one, and doc comments. -/
structure ContractHeader where
  name : String
  generics : List String
  supertraits : List String
  attrs : List String
  docs : List String
deriving DecidableEq

/-- Modelled from the spec: a parsed contract declaration (spec
section 3, ContractDeclaration): its header and its ordered sequence of
methods. -/
structure ContractDeclaration where
  header : ContractHeader
  methods : List Method
deriving DecidableEq

/-- Every syntactic element of an implementation declaration other than
its methods: the concrete receiver type, the implemented contract's name
(absent for an inherent implementation), generic parameters, attributes
and doc comments. -/
structure ImplHeader where
  selfType : TypeExpr
  contractName : Option String
  generics : List String
  attrs : List String
  docs : List String
deriving DecidableEq

/-- Modelled from the spec: a parsed implementation declaration (spec
section 3, ImplementationDeclaration). -/
structure ImplementationDeclaration where
  header : ImplHeader
  methods : List Method
deriving DecidableEq

/-- The structured model the declaration parser produces: an annotated
item is a contract declaration or an implementation declaration
(lib.rs parses the input as `Item`). -/
inductive Item where
| contract (c : ContractDeclaration)
| implementation (i : ImplementationDeclaration)
deriving DecidableEq

/-- The rewritten declaration the expansion engine emits: the untouched
header together with the expanded methods. -/
inductive ExpandedItem where
| contract (header : ContractHeader) (methods : List ExpandedMethod)
| implementation (header : ImplHeader) (methods : List ExpandedMethod)
deriving DecidableEq

/-- The concrete receiver type expansion substitutes for `Self`: the
implementation's self type, or `Self` itself inside a contract. -/
def itemConcrete : Item → TypeExpr
| Item.contract _ => TypeExpr.selfTy
| Item.implementation i => i.header.selfType

/-- The methods owned by an item. -/
def itemMethods : Item → List Method
| Item.contract c => c.methods
| Item.implementation i => i.methods

/-- The expanded methods of an expanded item. -/
def expandedItemMethods : ExpandedItem → List ExpandedMethod
| ExpandedItem.contract _ ms => ms
| ExpandedItem.implementation _ ms => ms

/-- The expanded item keeps exactly the input item's header: same
constructor and byte-identical header fields. -/
def headerPreserved : Item → ExpandedItem → Prop
| Item.contract c, ExpandedItem.contract h _ => h = c.header
| Item.implementation i, ExpandedItem.implementation h _ => h = i.header
| _, _ => False

/-- Modelled from the spec: item-level expansion of the missing `expand`
module, rewriting every contained method while preserving the header
verbatim. -/
def expandItem (localFlag : Bool) : Item → Except Diagnostic ExpandedItem
| Item.contract c => do
    let ms ← expandMethods localFlag TypeExpr.selfTy c.methods
    Except.ok (ExpandedItem.contract c.header ms)
| Item.implementation i => do
    let ms ← expandMethods localFlag i.header.selfType i.methods
    Except.ok (ExpandedItem.implementation i.header ms)

/-- The raw syntax the attribute may be applied to, as handed over by
the host compiler: a contract declaration, an implementation
declaration, or some other item (a plain function, a data-type
declaration, anything else), each with its source span. -/
inductive RawSyntax where
| contractDecl (c : ContractDeclaration)
| implDecl (i : ImplementationDeclaration)
| functionDecl (span : Nat)
| dataTypeDecl (span : Nat)
| otherItem (span : Nat)
deriving DecidableEq

/-- Modelled from the spec: the missing `parse` module's `Item` parser
invoked by lib.rs.  Raw syntax for a contract or implementation parses
to the structured item; anything else is rejected with a malformed
target diagnostic carrying a human-readable message and the offending
span. -/
def parseItem : RawSyntax → Except Diagnostic Item
| RawSyntax.contractDecl c => Except.ok (Item.contract c)
| RawSyntax.implDecl i => Except.ok (Item.implementation i)
| RawSyntax.functionDecl sp =>
    Except.error (Diagnostic.malformedTarget "expected trait or impl block" sp)
| RawSyntax.dataTypeDecl sp =>
    Except.error (Diagnostic.malformedTarget "expected trait or impl block" sp)
| RawSyntax.otherItem sp =>
    Except.error (Diagnostic.malformedTarget "expected trait or impl block" sp)

/-- The attribute's configuration arguments, embedded from lib.rs:
`parse_macro_input!(args as Option<kw::local>).is_some()` parses an
empty argument list to `false`, the single keyword `local` to `true`,
and rejects anything else with a diagnostic at the argument span. -/
def parseArgs (argSpan : Nat) : List String → Except Diagnostic Bool
| [] => Except.ok false
| ["local"] => Except.ok true
| _ => Except.error (Diagnostic.invalidConfiguration argSpan)

/-- The `async_trait` attribute entry point, embedded from lib.rs: parse
the configuration argument, parse the annotated item, expand it. -/
def asyncTrait (argSpan : Nat) (args : List String) (input : RawSyntax) :
    Except Diagnostic ExpandedItem := do
  let localFlag ← parseArgs argSpan args
  let item ← parseItem input
  expandItem localFlag item

/-- One compilation's worth of annotated items, each processed by its
own independent attribute invocation (no state is shared across
items). -/
def expandCompilation (items : List (Nat × List String × RawSyntax)) :
    List (Except Diagnostic ExpandedItem) :=
  items.map fun it => asyncTrait it.1 it.2.1 it.2.2

/-- Number of `unsafe` keyword tokens in a token stream. -/
def unsafeCount : List Tok → Nat
| [] => 0
| Tok.unsafeKw :: ts => unsafeCount ts + 1
| _ :: ts => unsafeCount ts

/-- Render an optional scope marker. -/
def renderScope : Option ScopeMarker → List Tok
| Option.none => []
| some ScopeMarker.placeholder => [Tok.lifetimeTok "_"]
| some (ScopeMarker.named s) => [Tok.lifetimeTok s]

/-- Render a type expression to tokens. -/
def renderType : TypeExpr → List Tok
| TypeExpr.unit => [Tok.sym "()"]
| TypeExpr.selfTy => [Tok.ident "Self"]
| TypeExpr.base n => [Tok.ident n]
| TypeExpr.app h a =>
    [Tok.ident h, Tok.sym "<"] ++ renderType a ++ [Tok.sym ">"]
| TypeExpr.ref sc b t =>
    [Tok.sym "&"] ++ renderScope sc ++
      (if b then [Tok.ident "mut"] else []) ++ renderType t
| TypeExpr.aliasRef n sc =>
    [Tok.ident n, Tok.sym "<"] ++ renderScope sc ++ [Tok.sym ">"]

/-- Render one parameter. -/
def renderParam (p : Param) : List Tok :=
  [Tok.ident p.name, Tok.sym ":"] ++ renderType p.ty

/-- Render a parameter list. -/
def renderParams : List Param → List Tok
| [] => []
| p :: ps => renderParam p ++ [Tok.sym ","] ++ renderParams ps

/-- Render a list of plain words (generics, attributes, doc comments,
where clauses) as identifier tokens. -/
def renderWords : List String → List Tok
| [] => []
| w :: ws => Tok.ident w :: renderWords ws

/-- Render an optional receiver parameter. -/
def renderRecv : Option (String × TypeExpr) → List Tok
| Option.none => []
| some (n, t) => [Tok.ident n, Tok.sym ":"] ++ renderType t ++ [Tok.sym ","]

/-- Render an injected capability bound. -/
def renderBound : Option CapabilityBound → List Tok
| Option.none => []
| some (CapabilityBound.threadShareable sc) =>
    [Tok.ident "Self", Tok.sym ":", Tok.ident "Sync", Tok.sym "+",
     Tok.lifetimeTok sc]
| some (CapabilityBound.threadMovable sc) =>
    [Tok.ident "Self", Tok.sym ":", Tok.ident "Send", Tok.sym "+",
     Tok.lifetimeTok sc]

/-- Render the handle return type
`Pin<Box<dyn Future<Output = T> + Send + 'scope>>`. -/
def renderHandle (h : HandleType) : List Tok :=
  [Tok.ident "Pin", Tok.sym "<", Tok.ident "Box", Tok.sym "<",
   Tok.ident "dyn", Tok.ident "Future", Tok.sym "<",
   Tok.ident "Output", Tok.sym "="] ++ renderType h.output ++
  [Tok.sym ">"] ++
  (if h.threadMovable then [Tok.sym "+", Tok.ident "Send"] else []) ++
  [Tok.sym "+", Tok.lifetimeTok h.scope, Tok.sym ">", Tok.sym ">"]

/-- Render the single wrapping body expression
`Pin::from(Box::new(callee(args)))`. -/
def renderWrap (w : CallWrapExpr) : List Tok :=
  [Tok.ident "Pin", Tok.sym "::", Tok.ident "from", Tok.sym "(",
   Tok.ident "Box", Tok.sym "::", Tok.ident "new", Tok.sym "(",
   Tok.ident w.callee, Tok.sym "("] ++ renderWords w.args ++
  [Tok.sym ")", Tok.sym ")", Tok.sym ")"]

/-- Render an untouched method exactly as it came in: its attributes,
doc comments, signature and verbatim body. -/
def renderMethod (m : Method) : List Tok :=
  renderWords m.attrs ++ renderWords m.docs ++
  (if m.isAsync then [Tok.ident "async"] else []) ++
  [Tok.ident "fn", Tok.ident m.name, Tok.sym "<"] ++
  renderWords m.generics ++ [Tok.sym ">", Tok.sym "("] ++
  renderRecv m.receiver ++ renderParams m.params ++
  [Tok.sym ")", Tok.sym "->"] ++ renderType m.returnType ++
  renderWords m.whereClauses ++
  (match m.body with
   | Option.none => [Tok.sym ";"]
   | some b => [Tok.sym "\x7b"] ++ b ++ [Tok.sym "\x7d"])

/-- Render a rewritten outer method. -/
def renderOuter (o : OuterMethod) : List Tok :=
  renderWords o.attrs ++ renderWords o.docs ++
  [Tok.ident "fn", Tok.ident o.name, Tok.sym "<"] ++
  renderWords o.generics ++ [Tok.sym ">", Tok.sym "("] ++
  renderRecv o.receiver ++ renderParams o.params ++
  [Tok.sym ")", Tok.sym "->"] ++ renderHandle o.returnType ++
  renderWords o.whereClauses ++ renderBound o.injectedBound ++
  (match o.body with
   | Option.none => [Tok.sym ";"]
   | some w => renderWrap w)

/-- Render the private inner asynchronous function: its scaffolding plus
the original body verbatim. -/
def renderInner (f : InnerFn) : List Tok :=
  [Tok.ident "async", Tok.ident "fn", Tok.ident f.name, Tok.sym "<"] ++
  renderWords f.generics ++ [Tok.sym ">", Tok.sym "("] ++
  renderRecv f.firstParam ++ renderParams f.params ++
  [Tok.sym ")", Tok.sym "->"] ++ renderType f.returnType ++ f.body

/-- Render one expanded method. -/
def renderExpandedMethod : ExpandedMethod → List Tok
| ExpandedMethod.unchanged m => renderMethod m
| ExpandedMethod.rewritten o Option.none => renderOuter o
| ExpandedMethod.rewritten o (some f) => renderInner f ++ renderOuter o

/-- Render a list of expanded methods. -/
def renderExpandedMethods : List ExpandedMethod → List Tok
| [] => []
| e :: es => renderExpandedMethod e ++ renderExpandedMethods es

/-- Render a whole expanded item. -/
def renderExpandedItem : ExpandedItem → List Tok
| ExpandedItem.contract h ms =>
    renderWords h.attrs ++ renderWords h.docs ++
    [Tok.ident "trait", Tok.ident h.name, Tok.sym "<"] ++
    renderWords h.generics ++ [Tok.sym ">", Tok.sym ":"] ++
    renderWords h.supertraits ++ renderExpandedMethods ms
| ExpandedItem.implementation h ms =>
    renderWords h.attrs ++ renderWords h.docs ++
    [Tok.ident "impl", Tok.sym "<"] ++ renderWords h.generics ++
    [Tok.sym ">"] ++
    (match h.contractName with
     | Option.none => []
     | some c => [Tok.ident c, Tok.ident "for"]) ++
    renderType h.selfType ++ renderExpandedMethods ms

/-- Number of `unsafe` tokens appearing in a method's original default
body (zero when there is no body). -/
def methodBodyUnsafe (m : Method) : Nat :=
  match m.body with
  | Option.none => 0
  | some b => unsafeCount b

/-- Total number of `unsafe` tokens in the original method bodies of a
list of methods. -/
def methodsBodyUnsafe : List Method → Nat
| [] => 0
| m :: ms => methodBodyUnsafe m + methodsBodyUnsafe ms

/-- Total number of `unsafe` tokens appearing verbatim in the original
method bodies of a raw annotated item. -/
def rawBodyUnsafe : RawSyntax → Nat
| RawSyntax.contractDecl c => methodsBodyUnsafe c.methods
| RawSyntax.implDecl i => methodsBodyUnsafe i.methods
| RawSyntax.functionDecl _ => 0
| RawSyntax.dataTypeDecl _ => 0
| RawSyntax.otherItem _ => 0

/-- Elided occurrences across a parameter list. -/
def paramsCountElided : List Param → Nat
| [] => 0
| p :: ps => countElided p.ty + paramsCountElided ps

/-- Occurrences of scope `cs` across a parameter list. -/
def paramsCountScope (cs : String) : List Param → Nat
| [] => 0
| p :: ps => countScope cs p.ty + paramsCountScope cs ps

/-- Every parameter type in the list is fully scoped. -/
def paramsFullyScoped : List Param → Bool
| [] => true
| p :: ps => fullyScoped p.ty && paramsFullyScoped ps

/-- Elided occurrences in an optional receiver's declared type. -/
def recvCountElided : Option (String × TypeExpr) → Nat
| Option.none => 0
| some (_, t) => countElided t

/-- Occurrences of scope `cs` in an optional receiver's declared type. -/
def recvCountScope (cs : String) : Option (String × TypeExpr) → Nat
| Option.none => 0
| some (_, t) => countScope cs t

/-- An optional receiver's declared type is fully scoped. -/
def recvFullyScoped : Option (String × TypeExpr) → Bool
| Option.none => true
| some (_, t) => fullyScoped t

/-- Elided reference occurrences reachable from a method's receiver,
parameters and return type. -/
def sigCountElided (m : Method) : Nat :=
  paramsCountElided m.params + countElided m.returnType +
    recvCountElided m.receiver

/-- Occurrences of scope `cs` reachable from a method's receiver,
parameters and return type. -/
def sigCountScope (cs : String) (m : Method) : Nat :=
  paramsCountScope cs m.params + countScope cs m.returnType +
    recvCountScope cs m.receiver

/-- A method signature is fully scoped when its receiver, every
parameter and the return type are. -/
def methodFullyScoped (m : Method) : Bool :=
  paramsFullyScoped m.params && fullyScoped m.returnType &&
    recvFullyScoped m.receiver

/-- Occurrences of scope `cs` across an elaboration result. -/
def resCountScope (cs : String) (r : ElabResult) : Nat :=
  paramsCountScope cs r.params + countScope cs r.returnType +
    recvCountScope cs r.receiver

/-- Every type of an elaboration result is fully scoped. -/
def resFullyScoped (r : ElabResult) : Bool :=
  paramsFullyScoped r.params && fullyScoped r.returnType &&
    recvFullyScoped r.receiver

/-- A concrete example method mirroring the crate documentation's
`async fn run(&self)` with a default body. -/
def exRun : Method :=
  { name := "run"
    isAsync := true
    generics := []
    attrs := []
    docs := []
    whereClauses := []
    receiver := some ("self", TypeExpr.ref Option.none false TypeExpr.selfTy)
    recvSpan := 1
    params := []
    returnType := TypeExpr.unit
    retSpan := 2
    body := some [Tok.ident "work"] }

/-- A concrete example method with every reference already explicitly
scoped, used to exercise idempotence. -/
def exScoped : Method :=
  { name := "get"
    isAsync := true
    generics := ["a"]
    attrs := []
    docs := []
    whereClauses := []
    receiver := some ("self",
      TypeExpr.ref (some (ScopeMarker.named "a")) false TypeExpr.selfTy)
    recvSpan := 1
    params := [{ name := "key"
                 ty := TypeExpr.ref (some (ScopeMarker.named "a")) false
                   (TypeExpr.base "str")
                 span := 3 }]
    returnType := TypeExpr.ref (some (ScopeMarker.named "a")) false
      (TypeExpr.base "str")
    retSpan := 4
    body := Option.none }

/-- A concrete example contract holding one synchronous and one
asynchronous method. -/
def exContract : ContractDeclaration :=
  { header := { name := "Advertisement"
                generics := []
                supertraits := []
                attrs := []
                docs := ["doc"] }
    methods := [{ exRun with name := "sync_helper", isAsync := false }, exRun] }

/-- A concrete example method whose parameter type hides a reference
behind an opaque alias with no scope argument, mirroring the crate
documentation's `async fn test(not_okay: Elided, okay: &usize)`. -/
def exOpaque : Method :=
  { exRun with
    name := "test"
    params := [{ name := "not_okay"
                 ty := TypeExpr.aliasRef "Elided" Option.none
                 span := 9 }] }

/-- A concrete example synchronous method. -/
def exSync : Method := { exRun with name := "sync_helper", isAsync := false }

/-- A concrete example contract holding a single synchronous method. -/
def exSyncContract : ContractDeclaration :=
  { header := { name := "Helpers"
                generics := ["T"]
                supertraits := []
                attrs := ["inline_hint"]
                docs := ["doc"] }
    methods := [exSync] }

/-- The elaboration result of `exRun` under the generated call scope. -/
def exRunElab : ElabResult :=
  { receiver := some ("self",
      TypeExpr.ref (some (ScopeMarker.named "async")) false TypeExpr.selfTy)
    params := []
    returnType := TypeExpr.unit
    newScopeParams := ["async"] }

/-- Reduction of a successful bind in the `Except` monad. -/
@[simp]
theorem exceptBindOk {ε α β : Type} (a : α) (f : α → Except ε β) :
    (do let x ← Except.ok a; f x : Except ε β) = f a := rfl

/-- Reduction of a failing bind in the `Except` monad. -/
@[simp]
theorem exceptBindErr {ε α β : Type} (e : ε) (f : α → Except ε β) :
    (do let x ← Except.error e; f x : Except ε β) = Except.error e := rfl

/-- Elaboration leaves a fully scoped type unchanged. -/
theorem elabType_of_fullyScoped (cs : String) :
    ∀ t : TypeExpr, fullyScoped t = true → elabType cs t = Except.ok t := by
  intro t
  induction t with
  | unit => intro _; rfl
  | selfTy => intro _; rfl
  | base n => intro _; rfl
  | app hd a ih =>
      intro hf
      simp only [fullyScoped] at hf
      simp [elabType, ih hf]
  | ref sc b t ih =>
      intro hf
      match sc with
      | Option.none => simp [fullyScoped] at hf
      | some ScopeMarker.placeholder => simp [fullyScoped] at hf
      | some (ScopeMarker.named s) =>
          simp only [fullyScoped] at hf
          simp [elabType, ih hf]
  | aliasRef n sc =>
      intro hf
      match sc with
      | Option.none => simp [fullyScoped] at hf
      | some ScopeMarker.placeholder => simp [fullyScoped] at hf
      | some (ScopeMarker.named s) => rfl

/-- A successful type elaboration yields a fully scoped type with no
elided occurrence left, and every formerly elided occurrence now carries
the call scope. -/
theorem elabType_ok_spec (cs : String) :
    ∀ t t2 : TypeExpr, elabType cs t = Except.ok t2 →
      fullyScoped t2 = true ∧ countElided t2 = 0 ∧
        countScope cs t2 = countElided t + countScope cs t := by
  intro t
  induction t with
  | unit =>
      intro t2 h
      simp only [elabType, Except.ok.injEq] at h
      subst h
      simp [fullyScoped, countElided, countScope]
  | selfTy =>
      intro t2 h
      simp only [elabType, Except.ok.injEq] at h
      subst h
      simp [fullyScoped, countElided, countScope]
  | base n =>
      intro t2 h
      simp only [elabType, Except.ok.injEq] at h
      subst h
      simp [fullyScoped, countElided, countScope]
  | app hd a ih =>
      intro t2 h
      cases ha : elabType cs a with
      | error e => simp [elabType, ha] at h
      | ok a2 =>
          simp [elabType, ha] at h
          subst h
          obtain ⟨f1, c1, s1⟩ := ih a2 ha
          simp [fullyScoped, countElided, countScope, f1, c1, s1]
  | ref sc b t ih =>
      intro t2 h
      match sc with
      | Option.none =>
          cases ht : elabType cs t with
          | error e => simp [elabType, ht] at h
          | ok u =>
              simp [elabType, ht] at h
              subst h
              obtain ⟨f1, c1, s1⟩ := ih u ht
              simp [fullyScoped, countElided, countScope, f1, c1, s1]
              omega
      | some ScopeMarker.placeholder =>
          cases ht : elabType cs t with
          | error e => simp [elabType, ht] at h
          | ok u =>
              simp [elabType, ht] at h
              subst h
              obtain ⟨f1, c1, s1⟩ := ih u ht
              simp [fullyScoped, countElided, countScope, f1, c1, s1]
              omega
      | some (ScopeMarker.named s) =>
          cases ht : elabType cs t with
          | error e => simp [elabType, ht] at h
          | ok u =>
              simp [elabType, ht] at h
              subst h
              obtain ⟨f1, c1, s1⟩ := ih u ht
              simp [fullyScoped, countElided, countScope, f1, c1, s1]
              omega
  | aliasRef n sc =>
      intro t2 h
      match sc with
      | Option.none => simp [elabType] at h
      | some ScopeMarker.placeholder =>
          simp only [elabType, Except.ok.injEq] at h
          subst h
          simp [fullyScoped, countElided, countScope]
      | some (ScopeMarker.named s) =>
          simp only [elabType, Except.ok.injEq] at h
          subst h
          simp [fullyScoped, countElided, countScope]

/-- A type free of opaque aliases always elaborates successfully. -/
theorem elabType_ok_of_no_opaque (cs : String) :
    ∀ t : TypeExpr, hasOpaqueAlias t = false →
      ∃ t2, elabType cs t = Except.ok t2 := by
  intro t
  induction t with
  | unit => intro _; exact ⟨_, rfl⟩
  | selfTy => intro _; exact ⟨_, rfl⟩
  | base n => intro _; exact ⟨_, rfl⟩
  | app hd a ih =>
      intro hf
      simp only [hasOpaqueAlias] at hf
      obtain ⟨a2, ha⟩ := ih hf
      exact ⟨TypeExpr.app hd a2, by simp [elabType, ha]⟩
  | ref sc b t ih =>
      intro hf
      simp only [hasOpaqueAlias] at hf
      obtain ⟨u, ht⟩ := ih hf
      match sc with
      | Option.none =>
          exact ⟨TypeExpr.ref (some (ScopeMarker.named cs)) b u,
            by simp [elabType, ht]⟩
      | some ScopeMarker.placeholder =>
          exact ⟨TypeExpr.ref (some (ScopeMarker.named cs)) b u,
            by simp [elabType, ht]⟩
      | some (ScopeMarker.named s) =>
          exact ⟨TypeExpr.ref (some (ScopeMarker.named s)) b u,
            by simp [elabType, ht]⟩
  | aliasRef n sc =>
      intro hf
      match sc with
      | Option.none => simp [hasOpaqueAlias] at hf
      | some ScopeMarker.placeholder => exact ⟨_, rfl⟩
      | some (ScopeMarker.named s) => exact ⟨_, rfl⟩

/-- A type containing an opaque alias never elaborates. -/
theorem elabType_error_of_opaque (cs : String) :
    ∀ t : TypeExpr, hasOpaqueAlias t = true →
      elabType cs t = Except.error () := by
  intro t
  induction t with
  | unit => intro h; simp [hasOpaqueAlias] at h
  | selfTy => intro h; simp [hasOpaqueAlias] at h
  | base n => intro h; simp [hasOpaqueAlias] at h
  | app hd a ih =>
      intro hf
      simp only [hasOpaqueAlias] at hf
      simp [elabType, ih hf]
  | ref sc b t ih =>
      intro hf
      simp only [hasOpaqueAlias] at hf
      match sc with
      | Option.none => simp [elabType, ih hf]
      | some ScopeMarker.placeholder => simp [elabType, ih hf]
      | some (ScopeMarker.named s) => simp [elabType, ih hf]
  | aliasRef n sc =>
      intro hf
      match sc with
      | Option.none => rfl
      | some ScopeMarker.placeholder => simp [hasOpaqueAlias] at hf
      | some (ScopeMarker.named s) => simp [hasOpaqueAlias] at hf

/-- Parameter-list elaboration leaves fully scoped parameters
unchanged. -/
theorem elabParams_of_fullyScoped (cs : String) :
    ∀ ps : List Param, paramsFullyScoped ps = true →
      elabParams cs ps = Except.ok ps := by
  intro ps
  induction ps with
  | nil => intro _; rfl
  | cons p ps ih =>
      intro hf
      simp only [paramsFullyScoped, Bool.and_eq_true] at hf
      simp [elabParams, elabType_of_fullyScoped cs p.ty hf.1, ih hf.2]

/-- A successful parameter-list elaboration yields fully scoped
parameters, preserving names and spans, where every formerly elided
occurrence now carries the call scope. -/
theorem elabParams_ok_spec (cs : String) :
    ∀ ps ps2 : List Param, elabParams cs ps = Except.ok ps2 →
      paramsFullyScoped ps2 = true ∧
        paramsCountScope cs ps2 =
          paramsCountElided ps + paramsCountScope cs ps ∧
        ps2.map Param.name = ps.map Param.name ∧
        ps2.map Param.span = ps.map Param.span := by
  intro ps
  induction ps with
  | nil =>
      intro ps2 h
      simp only [elabParams, Except.ok.injEq] at h
      subst h
      simp [paramsFullyScoped, paramsCountScope, paramsCountElided]
  | cons p ps ih =>
      intro ps2 h
      cases ht : elabType cs p.ty with
      | error e => simp [elabParams, ht] at h
      | ok t2 =>
          cases hps : elabParams cs ps with
          | error e => simp [elabParams, ht, hps] at h
          | ok qs =>
              simp [elabParams, ht, hps] at h
              subst h
              obtain ⟨f1, c1, s1⟩ := elabType_ok_spec cs p.ty t2 ht
              obtain ⟨f2, c2, n2, sp2⟩ := ih qs hps
              refine ⟨?_, ?_, ?_, ?_⟩
              · simp [paramsFullyScoped, f1, f2]
              · simp [paramsCountScope, paramsCountElided, c2, s1]
                omega
              · simp [n2]
              · simp [sp2]

/-- Parameter-list elaboration aborts at the first parameter whose type
hides an opaque alias, reporting the ambiguity at that parameter's
span. -/
theorem elabParams_error_at (cs : String) :
    ∀ (pre : List Param) (p : Param) (post : List Param),
      (∀ q ∈ pre, hasOpaqueAlias q.ty = false) →
      hasOpaqueAlias p.ty = true →
      elabParams cs (pre ++ p :: post) =
        Except.error (Diagnostic.ambiguousBorrowScope p.span) := by
  intro pre
  induction pre with
  | nil =>
      intro p post _ hp
      simp [elabParams, elabType_error_of_opaque cs p.ty hp]
  | cons q pre ih =>
      intro p post hpre hp
      obtain ⟨t2, ht⟩ :=
        elabType_ok_of_no_opaque cs q.ty (hpre q (List.mem_cons_self q pre))
      have hrest := ih p post (fun r hr => hpre r (List.mem_cons_of_mem q hr)) hp
      simp [elabParams, ht, hrest]

/-- Inversion of a successful signature elaboration: the parameters and
return type elaborated successfully, exactly the one call scope was
introduced, and the receiver either was absent and stays absent or
elaborated successfully keeping its name. -/
theorem elabSignature_ok_inv (cs : String) (m : Method) (r : ElabResult)
    (h : elabSignature cs m = Except.ok r) :
    elabParams cs m.params = Except.ok r.params ∧
      elabType cs m.returnType = Except.ok r.returnType ∧
      r.newScopeParams = [cs] ∧
      ((m.receiver = Option.none ∧ r.receiver = Option.none) ∨
        ∃ n t t2, m.receiver = some (n, t) ∧ elabType cs t = Except.ok t2 ∧
          r.receiver = some (n, t2)) := by
  unfold elabSignature at h
  cases hps : elabParams cs m.params with
  | error e => simp [hps] at h
  | ok ps2 =>
      cases hret : elabType cs m.returnType with
      | error e => simp [hps, hret] at h
      | ok ret2 =>
          cases hrecv : m.receiver with
          | none =>
              simp only [hps, hret, hrecv, Except.ok.injEq] at h
              subst h
              exact ⟨rfl, rfl, rfl, Or.inl ⟨rfl, rfl⟩⟩
          | some nt =>
              obtain ⟨n, t⟩ := nt
              cases ht : elabType cs t with
              | error e => simp [hps, hret, hrecv, ht] at h
              | ok t2 =>
                  simp only [hps, hret, hrecv, ht, Except.ok.injEq] at h
                  subst h
                  exact ⟨rfl, rfl, rfl, Or.inr ⟨n, t, t2, rfl, ht, rfl⟩⟩

/-- A synchronous method passes through expansion untouched. -/
theorem expandMethod_sync (localFlag : Bool) (concrete : TypeExpr)
    (m : Method) (h : m.isAsync = false) :
    expandMethod localFlag concrete m =
      Except.ok (ExpandedMethod.unchanged m) := by
  simp [expandMethod, h]

/-- A successful list expansion preserves length and expands each method
independently at its own index. -/
theorem expandMethods_ok_spec (localFlag : Bool) (concrete : TypeExpr) :
    ∀ ms es, expandMethods localFlag concrete ms = Except.ok es →
      es.length = ms.length ∧
        ∀ i m, ms.get? i = some m →
          ∃ e, es.get? i = some e ∧
            expandMethod localFlag concrete m = Except.ok e := by
  intro ms
  induction ms with
  | nil =>
      intro es h
      simp only [expandMethods, Except.ok.injEq] at h
      subst h
      exact ⟨rfl, by intro i m hm; simp at hm⟩
  | cons m ms ih =>
      intro es h
      cases hm : expandMethod localFlag concrete m with
      | error e => simp [expandMethods, hm] at h
      | ok e =>
          cases hms : expandMethods localFlag concrete ms with
          | error e2 => simp [expandMethods, hm, hms] at h
          | ok es2 =>
              simp [expandMethods, hm, hms] at h
              subst h
              obtain ⟨hl, hpt⟩ := ih es2 hms
              refine ⟨by simp [hl], ?_⟩
              intro i q hq
              match i with
              | 0 =>
                  simp only [List.get?] at hq
                  cases hq
                  exact ⟨e, rfl, hm⟩
              | Nat.succ j =>
                  simp only [List.get?] at hq ⊢
                  exact hpt j q hq

/-- Indexing commutes with mapping over a list. -/
theorem getMapAux {α β : Type} (f : α → β) :
    ∀ (l : List α) (i : Nat), (l.map f).get? i = (l.get? i).map f := by
  intro l
  induction l with
  | nil => intro i; cases i <;> rfl
  | cons x xs ih =>
      intro i
      cases i with
      | zero => rfl
      | succ j => exact ih j

/-- The `unsafe` count is additive over concatenation. -/
theorem unsafeCount_append :
    ∀ xs ys : List Tok, unsafeCount (xs ++ ys) =
      unsafeCount xs + unsafeCount ys := by
  intro xs ys
  induction xs with
  | nil => simp [unsafeCount]
  | cons x xs ih =>
      cases x with
      | unsafeKw => simp [unsafeCount, ih]; omega
      | ident s => simp [unsafeCount, ih]
      | sym s => simp [unsafeCount, ih]
      | lifetimeTok s => simp [unsafeCount, ih]

/-- Rendered plain words contain no `unsafe` token. -/
theorem unsafeCount_renderWords :
    ∀ ws : List String, unsafeCount (renderWords ws) = 0 := by
  intro ws
  induction ws with
  | nil => rfl
  | cons w ws ih => simp [renderWords, unsafeCount, ih]

/-- Rendered scope markers contain no `unsafe` token. -/
theorem unsafeCount_renderScope :
    ∀ sc : Option ScopeMarker, unsafeCount (renderScope sc) = 0 := by
  intro sc
  match sc with
  | Option.none => rfl
  | some ScopeMarker.placeholder => rfl
  | some (ScopeMarker.named s) => rfl

/-- Rendered type expressions contain no `unsafe` token. -/
theorem unsafeCount_renderType :
    ∀ t : TypeExpr, unsafeCount (renderType t) = 0 := by
  intro t
  induction t with
  | unit => rfl
  | selfTy => rfl
  | base n => rfl
  | app hd a ih =>
      simp [renderType, unsafeCount_append, unsafeCount, ih]
  | ref sc b t ih =>
      cases b <;>
        simp [renderType, unsafeCount_append, unsafeCount,
          unsafeCount_renderScope, ih]
  | aliasRef n sc =>
      simp [renderType, unsafeCount_append, unsafeCount,
        unsafeCount_renderScope]

/-- Rendered parameters contain no `unsafe` token. -/
theorem unsafeCount_renderParams :
    ∀ ps : List Param, unsafeCount (renderParams ps) = 0 := by
  intro ps
  induction ps with
  | nil => rfl
  | cons p ps ih =>
      simp [renderParams, renderParam, unsafeCount_append, unsafeCount,
        unsafeCount_renderType, ih]

/-- A rendered receiver contains no `unsafe` token. -/
theorem unsafeCount_renderRecv :
    ∀ recv : Option (String × TypeExpr), unsafeCount (renderRecv recv) = 0 := by
  intro recv
  match recv with
  | Option.none => rfl
  | some (n, t) =>
      simp [renderRecv, unsafeCount_append, unsafeCount,
        unsafeCount_renderType]

/-- A rendered capability bound contains no `unsafe` token. -/
theorem unsafeCount_renderBound :
    ∀ bd : Option CapabilityBound, unsafeCount (renderBound bd) = 0 := by
  intro bd
  match bd with
  | Option.none => rfl
  | some (CapabilityBound.threadShareable sc) => rfl
  | some (CapabilityBound.threadMovable sc) => rfl

/-- A rendered handle type contains no `unsafe` token. -/
theorem unsafeCount_renderHandle (h : HandleType) :
    unsafeCount (renderHandle h) = 0 := by
  cases hb : h.threadMovable <;>
    simp [renderHandle, hb, unsafeCount_append, unsafeCount,
      unsafeCount_renderType]

/-- A rendered wrapping expression contains no `unsafe` token. -/
theorem unsafeCount_renderWrap (w : CallWrapExpr) :
    unsafeCount (renderWrap w) = 0 := by
  simp [renderWrap, unsafeCount_append, unsafeCount, unsafeCount_renderWords]

/-- A rendered untouched method holds exactly the `unsafe` tokens of its
own body. -/
theorem unsafeCount_renderMethod (m : Method) :
    unsafeCount (renderMethod m) = methodBodyUnsafe m := by
  cases hb : m.body with
  | none =>
      cases ha : m.isAsync <;>
        simp [renderMethod, methodBodyUnsafe, hb, ha, unsafeCount_append,
          unsafeCount, unsafeCount_renderWords, unsafeCount_renderType,
          unsafeCount_renderRecv, unsafeCount_renderParams]
  | some b =>
      cases ha : m.isAsync <;>
        simp [renderMethod, methodBodyUnsafe, hb, ha, unsafeCount_append,
          unsafeCount, unsafeCount_renderWords, unsafeCount_renderType,
          unsafeCount_renderRecv, unsafeCount_renderParams]

/-- A rendered outer method contains no `unsafe` token: its body is the
single wrapping call expression. -/
theorem unsafeCount_renderOuter (o : OuterMethod) :
    unsafeCount (renderOuter o) = 0 := by
  cases hb : o.body <;> cases htm : o.returnType.threadMovable <;>
    simp [renderOuter, renderHandle, hb, htm, unsafeCount_append, unsafeCount,
      unsafeCount_renderWords, unsafeCount_renderRecv,
      unsafeCount_renderParams, unsafeCount_renderType,
      unsafeCount_renderBound, unsafeCount_renderWrap]

/-- A rendered inner function holds exactly the `unsafe` tokens of the
verbatim original body it carries. -/
theorem unsafeCount_renderInner (f : InnerFn) :
    unsafeCount (renderInner f) = unsafeCount f.body := by
  simp [renderInner, unsafeCount_append, unsafeCount,
    unsafeCount_renderWords, unsafeCount_renderRecv,
    unsafeCount_renderParams, unsafeCount_renderType]

/-- Expanding one method emits exactly the `unsafe` tokens of the
method's own original body. -/
theorem unsafeCount_expandMethod (localFlag : Bool) (concrete : TypeExpr)
    (m : Method) (e : ExpandedMethod)
    (h : expandMethod localFlag concrete m = Except.ok e) :
    unsafeCount (renderExpandedMethod e) = methodBodyUnsafe m := by
  cases ha : m.isAsync with
  | false =>
      rw [expandMethod_sync localFlag concrete m ha] at h
      cases h
      exact unsafeCount_renderMethod m
  | true =>
      unfold expandMethod at h
      rw [ha] at h
      simp only [if_true] at h
      cases hcls : classifyReceiver m.receiver with
      | error e2 => rw [hcls] at h; cases h
      | ok shape =>
          rw [hcls] at h
          cases hesig : elabSignature (callScope m) m with
          | error e2 => rw [hesig] at h; cases h
          | ok r =>
              rw [hesig] at h
              cases hb : m.body with
              | none =>
                  rw [hb] at h
                  simp only [Option.map, Except.ok.injEq] at h
                  subst h
                  simp [renderExpandedMethod, methodBodyUnsafe, hb,
                    unsafeCount_renderOuter]
              | some b =>
                  rw [hb] at h
                  simp only [Option.map, Except.ok.injEq] at h
                  subst h
                  simp [renderExpandedMethod, methodBodyUnsafe, hb,
                    unsafeCount_append, unsafeCount_renderOuter,
                    unsafeCount_renderInner]

/-- Expanding a method list emits exactly the `unsafe` tokens of the
original bodies. -/
theorem unsafeCount_expandMethods (localFlag : Bool) (concrete : TypeExpr) :
    ∀ ms es, expandMethods localFlag concrete ms = Except.ok es →
      unsafeCount (renderExpandedMethods es) = methodsBodyUnsafe ms := by
  intro ms
  induction ms with
  | nil =>
      intro es h
      simp only [expandMethods, Except.ok.injEq] at h
      subst h
      rfl
  | cons m ms ih =>
      intro es h
      cases hm : expandMethod localFlag concrete m with
      | error e => simp [expandMethods, hm] at h
      | ok e =>
          cases hms : expandMethods localFlag concrete ms with
          | error e2 => simp [expandMethods, hm, hms] at h
          | ok es2 =>
              simp [expandMethods, hm, hms] at h
              subst h
              simp [renderExpandedMethods, unsafeCount_append,
                unsafeCount_expandMethod localFlag concrete m e hm,
                ih es2 hms, methodsBodyUnsafe]

/-- C2: capability-bound injection is a total function of receiver
shape, default-body presence and the local flag: with the flag off, a
by-reference receiver with a default body gets exactly the
thread-shareable bound scoped to the call scope, a by-mutable-reference
receiver with a default body gets exactly the thread-movable bound,
by-value and receiverless methods get no extra bound, methods without a
default body get no extra bound, and with the flag on no bound is ever
injected for any combination of shape and body presence. -/
theorem claim_C2_bound_injection_total (cs : String) :
    injectedBound cs false Receiver.byReference true =
      some (CapabilityBound.threadShareable cs) ∧
    injectedBound cs false Receiver.byMutableReference true =
      some (CapabilityBound.threadMovable cs) ∧
    injectedBound cs false Receiver.byValue true = Option.none ∧
    injectedBound cs false Receiver.none true = Option.none ∧
    (∀ shape : Receiver, injectedBound cs false shape false = Option.none) ∧
    (∀ (shape : Receiver) (hasBody : Bool),
      injectedBound cs true shape hasBody = Option.none) := by
  refine ⟨rfl, rfl, rfl, rfl, ?_, ?_⟩
  · intro shape
    cases shape <;> rfl
  · intro shape hasBody
    rfl

/-- C3: the configuration argument determines the mode: an empty
argument list selects default mode, the single argument `local` selects
local mode, and any other argument list is rejected with a diagnostic at
the argument span. -/
theorem claim_C3_config_argument (sp : Nat) (args : List String) :
    parseArgs sp [] = Except.ok false ∧
    parseArgs sp ["local"] = Except.ok true ∧
    (args ≠ [] → args ≠ ["local"] →
      parseArgs sp args =
        Except.error (Diagnostic.invalidConfiguration sp)) := by
  refine ⟨rfl, rfl, ?_⟩
  intro h1 h2
  unfold parseArgs
  split
  · exact absurd rfl h1
  · exact absurd rfl h2
  · rfl

/-- C3 witness: the three modes at concrete argument lists. -/
theorem claim_C3_config_argument_witness :
    parseArgs 5 [] = Except.ok false ∧
    parseArgs 5 ["local"] = Except.ok true ∧
    parseArgs 5 ["bogus"] =
      Except.error (Diagnostic.invalidConfiguration 5) :=
  ⟨(claim_C3_config_argument 5 ["bogus"]).1,
   (claim_C3_config_argument 5 ["bogus"]).2.1,
   (claim_C3_config_argument 5 ["bogus"]).2.2 (by decide) (by decide)⟩

/-- C9: receiver classification follows the four priority-ordered rules
and is total on well-formed input: no first parameter named as a
self-reference classifies as `none`, the bare receiver type as
`byValue`, an immutable reference to the receiver type as `byReference`,
a mutable one as `byMutableReference`; and for every well-formed first
parameter the classifier returns a shape, its failure branch being
unreachable. -/
theorem claim_C9_receiver_classification :
    classifyReceiver Option.none = Except.ok Receiver.none ∧
    (∀ (n : String) (t : TypeExpr), n ≠ "self" →
      classifyReceiver (some (n, t)) = Except.ok Receiver.none) ∧
    classifyReceiver (some ("self", TypeExpr.selfTy)) =
      Except.ok Receiver.byValue ∧
    (∀ sc : Option ScopeMarker,
      classifyReceiver (some ("self", TypeExpr.ref sc false TypeExpr.selfTy)) =
        Except.ok Receiver.byReference) ∧
    (∀ sc : Option ScopeMarker,
      classifyReceiver (some ("self", TypeExpr.ref sc true TypeExpr.selfTy)) =
        Except.ok Receiver.byMutableReference) ∧
    (∀ p : Option (String × TypeExpr), wellFormedReceiver p = true →
      ∃ shape, classifyReceiver p = Except.ok shape) := by
  refine ⟨rfl, ?_, by simp [classifyReceiver], ?_, ?_, ?_⟩
  · intro n t hn
    simp [classifyReceiver, hn]
  · intro sc
    simp [classifyReceiver]
  · intro sc
    simp [classifyReceiver]
  · intro p hw
    match p with
    | Option.none => exact ⟨Receiver.none, rfl⟩
    | some (n, t) =>
        by_cases hn : n = "self"
        · subst hn
          simp only [wellFormedReceiver, if_pos rfl] at hw
          match t with
          | TypeExpr.unit => simp at hw
          | TypeExpr.selfTy =>
              exact ⟨Receiver.byValue, by simp [classifyReceiver]⟩
          | TypeExpr.base nm => simp at hw
          | TypeExpr.app hd a => simp at hw
          | TypeExpr.aliasRef nm sc => simp at hw
          | TypeExpr.ref sc b inner =>
              match inner, b with
              | TypeExpr.selfTy, false =>
                  exact ⟨Receiver.byReference, by simp [classifyReceiver]⟩
              | TypeExpr.selfTy, true =>
                  exact ⟨Receiver.byMutableReference,
                    by simp [classifyReceiver]⟩
              | TypeExpr.unit, _ => simp at hw
              | TypeExpr.base nm, _ => simp at hw
              | TypeExpr.app hd a, _ => simp at hw
              | TypeExpr.aliasRef nm sc2, _ => simp at hw
              | TypeExpr.ref sc2 b2 i2, _ => simp at hw
        · exact ⟨Receiver.none, by simp [classifyReceiver, hn]⟩

/-- C9 witness: classification at concrete receivers, including
totality on a concrete well-formed receiver. -/
theorem claim_C9_receiver_classification_witness :
    classifyReceiver (some ("ctx", TypeExpr.base "Context")) =
      Except.ok Receiver.none ∧
    ∃ shape,
      classifyReceiver
        (some ("self", TypeExpr.ref Option.none true TypeExpr.selfTy)) =
        Except.ok shape :=
  ⟨claim_C9_receiver_classification.2.1 "ctx" (TypeExpr.base "Context")
      (by decide),
   claim_C9_receiver_classification.2.2.2.2.2
      (some ("self", TypeExpr.ref Option.none true TypeExpr.selfTy))
      (by decide)⟩

/-- C7: applying the attribute to anything other than a contract or
implementation declaration fails with a malformed-target diagnostic
carrying a human-readable message and the offending span, the expansion
of that item is aborted, and expansion of every other item in the same
compilation is computed independently from its own input alone. -/
theorem claim_C7_malformed_target (sp : Nat)
    (items : List (Nat × List String × RawSyntax)) (i : Nat) :
    parseItem (RawSyntax.functionDecl sp) =
      Except.error
        (Diagnostic.malformedTarget "expected trait or impl block" sp) ∧
    parseItem (RawSyntax.dataTypeDecl sp) =
      Except.error
        (Diagnostic.malformedTarget "expected trait or impl block" sp) ∧
    parseItem (RawSyntax.otherItem sp) =
      Except.error
        (Diagnostic.malformedTarget "expected trait or impl block" sp) ∧
    ("expected trait or impl block").length = 28 ∧
    asyncTrait 0 [] (RawSyntax.functionDecl sp) =
      Except.error
        (Diagnostic.malformedTarget "expected trait or impl block" sp) ∧
    (expandCompilation items).get? i =
      (items.get? i).map (fun it => asyncTrait it.1 it.2.1 it.2.2) := by
  refine ⟨rfl, rfl, rfl, rfl, rfl, ?_⟩
  exact getMapAux (fun it => asyncTrait it.1 it.2.1 it.2.2) items i

/-- C8: borrow-scope elaboration is idempotent on already fully scoped
input: on a signature whose reference-shaped types all carry explicit
scopes, elaboration succeeds leaving the signature unchanged, and
applying it again to the resulting signature yields the very same scope
assignment. -/
theorem claim_C8_elaboration_idempotent (cs : String) (m : Method)
    (h : methodFullyScoped m = true) :
    ∃ r, elabSignature cs m = Except.ok r ∧ applyElab m r = m ∧
      elabSignature cs (applyElab m r) = Except.ok r := by
  simp only [methodFullyScoped, Bool.and_eq_true] at h
  obtain ⟨⟨hp, hr⟩, hv⟩ := h
  have hsig : elabSignature cs m =
      Except.ok ⟨m.receiver, m.params, m.returnType, [cs]⟩ := by
    unfold elabSignature
    rw [elabParams_of_fullyScoped cs m.params hp,
      elabType_of_fullyScoped cs m.returnType hr]
    cases hm : m.receiver with
    | none => simp [hm]
    | some nt =>
        obtain ⟨n, t⟩ := nt
        have ht : fullyScoped t = true := by
          simpa [recvFullyScoped, hm] using hv
        simp [hm, elabType_of_fullyScoped cs t ht]
  exact ⟨⟨m.receiver, m.params, m.returnType, [cs]⟩, hsig, rfl, hsig⟩

/-- C8 witness: idempotence on a concrete fully scoped signature. -/
theorem claim_C8_elaboration_idempotent_witness :
    ∃ r, elabSignature "async" exScoped = Except.ok r ∧
      applyElab exScoped r = exScoped ∧
      elabSignature "async" (applyElab exScoped r) = Except.ok r :=
  claim_C8_elaboration_idempotent "async" exScoped (by decide)

/-- C4: a successful elaboration introduces exactly the one generated
call scope as a new scope parameter; afterwards every reference-shaped
type reachable from the receiver, the parameters and the return type
carries an explicit scope; all formerly elided occurrences now carry
that one call scope (their count is added to the call-scope count); and
a receiver whose scope was implicit is bound to the same call scope. -/
theorem claim_C4_single_call_scope (cs : String) (m : Method)
    (r : ElabResult) (h : elabSignature cs m = Except.ok r) :
    r.newScopeParams = [cs] ∧
    resFullyScoped r = true ∧
    resCountScope cs r = sigCountElided m + sigCountScope cs m ∧
    (∀ (n : String) (b : Bool),
      m.receiver = some (n, TypeExpr.ref Option.none b TypeExpr.selfTy) →
      r.receiver =
        some (n, TypeExpr.ref (some (ScopeMarker.named cs)) b
          TypeExpr.selfTy)) := by
  obtain ⟨hps, hret, hnew, hrecv⟩ := elabSignature_ok_inv cs m r h
  obtain ⟨pf, pc, _, _⟩ := elabParams_ok_spec cs m.params r.params hps
  obtain ⟨rf, rc, rs⟩ := elabType_ok_spec cs m.returnType r.returnType hret
  refine ⟨hnew, ?_, ?_, ?_⟩
  · rcases hrecv with ⟨hm, hr⟩ | ⟨n, t, t2, hm, ht, hr⟩
    · simp [resFullyScoped, pf, rf, hr, recvFullyScoped]
    · obtain ⟨tf, _, _⟩ := elabType_ok_spec cs t t2 ht
      simp [resFullyScoped, pf, rf, hr, recvFullyScoped, tf]
  · rcases hrecv with ⟨hm, hr⟩ | ⟨n, t, t2, hm, ht, hr⟩
    · simp [resCountScope, sigCountElided, sigCountScope, pc, rs, hm, hr,
        recvCountScope, recvCountElided]
      omega
    · obtain ⟨_, _, ts⟩ := elabType_ok_spec cs t t2 ht
      simp [resCountScope, sigCountElided, sigCountScope, pc, rs, hm, hr,
        recvCountScope, recvCountElided, ts]
      omega
  · intro n b hm2
    rcases hrecv with ⟨hm, hr⟩ | ⟨n3, t, t2, hm, ht, hr⟩
    · rw [hm] at hm2
      exact absurd hm2 (by simp)
    · rw [hm] at hm2
      simp only [Option.some.injEq, Prod.mk.injEq] at hm2
      obtain ⟨hn, ht2⟩ := hm2
      subst hn
      subst ht2
      simp only [elabType, exceptBindOk, Except.ok.injEq] at ht
      subst ht
      rw [hr]

/-- C4 witness: elaborating the crate documentation's `run(&self)`
method introduces the one call scope and binds the receiver to it. -/
theorem claim_C4_single_call_scope_witness :
    exRunElab.newScopeParams = ["async"] ∧
    exRunElab.receiver =
      some ("self", TypeExpr.ref (some (ScopeMarker.named "async")) false
        TypeExpr.selfTy) :=
  ⟨(claim_C4_single_call_scope "async" exRun exRunElab rfl).1,
   (claim_C4_single_call_scope "async" exRun exRunElab rfl).2.2.2 "self"
     false rfl⟩

/-- C6: a parameter whose type hides a reference behind an alias with no
explicit scope marker (every earlier parameter being unaffected) makes
signature elaboration fail with an ambiguous-borrow-scope diagnostic at
exactly that parameter's span; the same alias used with the explicit
placeholder elaborates successfully, binding the placeholder to the
generated call scope. -/
theorem claim_C6_ambiguous_alias (cs : String) (m : Method)
    (pre post : List Param) (p : Param)
    (hsplit : m.params = pre ++ p :: post)
    (hpre : ∀ q ∈ pre, hasOpaqueAlias q.ty = false)
    (hp : hasOpaqueAlias p.ty = true) :
    elabSignature cs m =
      Except.error (Diagnostic.ambiguousBorrowScope p.span) ∧
    (∀ (a nm : String) (sp : Nat),
      elabParams cs
        [{ name := nm
           ty := TypeExpr.aliasRef a (some ScopeMarker.placeholder)
           span := sp }] =
        Except.ok
          [{ name := nm
             ty := TypeExpr.aliasRef a (some (ScopeMarker.named cs))
             span := sp }]) := by
  constructor
  · have he := elabParams_error_at cs pre p post hpre hp
    unfold elabSignature
    rw [hsplit, he]
  · intro a nm sp
    rfl

/-- C6 witness: the concrete `test(not_okay: Elided)` method is rejected
at the parameter's span, and `Elided` with the placeholder elaborates to
the call scope. -/
theorem claim_C6_ambiguous_alias_witness :
    elabSignature "async" exOpaque =
      Except.error (Diagnostic.ambiguousBorrowScope 9) ∧
    elabParams "async"
      [{ name := "okay"
         ty := TypeExpr.aliasRef "Elided" (some ScopeMarker.placeholder)
         span := 3 }] =
      Except.ok
        [{ name := "okay"
           ty := TypeExpr.aliasRef "Elided" (some (ScopeMarker.named "async"))
           span := 3 }] :=
  ⟨(claim_C6_ambiguous_alias "async" exOpaque [] []
      { name := "not_okay", ty := TypeExpr.aliasRef "Elided" Option.none,
        span := 9 } rfl (by simp) rfl).1,
   (claim_C6_ambiguous_alias "async" exOpaque [] []
      { name := "not_okay", ty := TypeExpr.aliasRef "Elided" Option.none,
        span := 9 } rfl (by simp) rfl).2 "Elided" "okay" 3⟩

/-- C1: expanding an asynchronous method with a default body produces
exactly (a) an outer synchronous method whose return type is the
heap-owned, dynamically-dispatched deferred-computation handle over the
(scope-elaborated) original return type, thread-movable unless local
mode is on and bounded by the generated call scope, whose generics gain
the call scope and whose body is the single expression calling the
inner function on the receiver and the parameter names and wrapping the
result in the handle; and (b) a private inner asynchronous freestanding
function with the same generic parameters, a first parameter that is
the receiver renamed and taken at the receiver's underlying
concrete type, the original non-receiver parameters, the original
return type and the original body verbatim. -/
theorem claim_C1_async_method_expansion (localFlag : Bool)
    (concrete : TypeExpr) (m : Method) (shape : Receiver) (r : ElabResult)
    (b : List Tok)
    (hA : m.isAsync = true)
    (hcls : classifyReceiver m.receiver = Except.ok shape)
    (hesig : elabSignature (callScope m) m = Except.ok r)
    (hbody : m.body = some b) :
    expandMethod localFlag concrete m =
      Except.ok (ExpandedMethod.rewritten
        { name := m.name
          isAsync := false
          generics := m.generics ++ r.newScopeParams
          attrs := m.attrs
          docs := m.docs
          whereClauses := m.whereClauses
          injectedBound := injectedBound (callScope m) localFlag shape true
          receiver := r.receiver
          params := r.params
          returnType :=
            { output := r.returnType
              threadMovable := !localFlag
              scope := callScope m }
          body := some
            { callee := m.name
              args :=
                (match m.receiver with
                 | Option.none => []
                 | some _ => ["self"]) ++ m.params.map Param.name } }
        (some
          { name := m.name
            isAsync := true
            generics := m.generics ++ r.newScopeParams
            firstParam := innerFirstParam concrete m.receiver
            params := m.params
            returnType := m.returnType
            body := b })) := by
  simp [expandMethod, hA, hcls, hesig, hbody, Option.map]

/-- C1 witness: the crate documentation's `run(&self)` method expands to
the outer handle-returning method delegating to the private inner
asynchronous function. -/
theorem claim_C1_async_method_expansion_witness :
    expandMethod false (TypeExpr.base "AutoplayingVideo") exRun =
      Except.ok (ExpandedMethod.rewritten
        { name := "run"
          isAsync := false
          generics := ["async"]
          attrs := []
          docs := []
          whereClauses := []
          injectedBound := some (CapabilityBound.threadShareable "async")
          receiver := some ("self",
            TypeExpr.ref (some (ScopeMarker.named "async")) false
              TypeExpr.selfTy)
          params := []
          returnType :=
            { output := TypeExpr.unit
              threadMovable := true
              scope := "async" }
          body := some { callee := "run", args := ["self"] } }
        (some
          { name := "run"
            isAsync := true
            generics := ["async"]
            firstParam := some ("_self",
              TypeExpr.ref Option.none false (TypeExpr.base "AutoplayingVideo"))
            params := []
            returnType := TypeExpr.unit
            body := [Tok.ident "work"] })) :=
  claim_C1_async_method_expansion false (TypeExpr.base "AutoplayingVideo")
    exRun Receiver.byReference exRunElab [Tok.ident "work"] rfl rfl rfl rfl

/-- C5: expansion preserves byte-for-byte everything that is not itself
a rewriting target: the item's header (name, generic parameters,
supertrait bounds, other attributes and doc comments) is identical
between input and output, the method list keeps its length and order,
and every synchronous method reappears unchanged at its own index. -/
theorem claim_C5_frame (localFlag : Bool) (it : Item) (out : ExpandedItem)
    (h : expandItem localFlag it = Except.ok out) :
    headerPreserved it out ∧
    (expandedItemMethods out).length = (itemMethods it).length ∧
    ∀ i m, (itemMethods it).get? i = some m → m.isAsync = false →
      (expandedItemMethods out).get? i =
        some (ExpandedMethod.unchanged m) := by
  cases it with
  | contract c =>
      cases hms : expandMethods localFlag TypeExpr.selfTy c.methods with
      | error e => simp [expandItem, hms] at h
      | ok es =>
          simp [expandItem, hms] at h
          subst h
          obtain ⟨hl, hpt⟩ :=
            expandMethods_ok_spec localFlag TypeExpr.selfTy c.methods es hms
          refine ⟨rfl, hl, ?_⟩
          intro i m hm hsync
          obtain ⟨e, he, hexp⟩ := hpt i m hm
          rw [expandMethod_sync localFlag TypeExpr.selfTy m hsync] at hexp
          cases hexp
          exact he
  | implementation im =>
      cases hms : expandMethods localFlag im.header.selfType im.methods with
      | error e => simp [expandItem, hms] at h
      | ok es =>
          simp [expandItem, hms] at h
          subst h
          obtain ⟨hl, hpt⟩ :=
            expandMethods_ok_spec localFlag im.header.selfType im.methods es
              hms
          refine ⟨rfl, hl, ?_⟩
          intro i m hm hsync
          obtain ⟨e, he, hexp⟩ := hpt i m hm
          rw [expandMethod_sync localFlag im.header.selfType m hsync] at hexp
          cases hexp
          exact he

/-- C5 witness: a contract holding one synchronous method expands to the
same header with the method untouched at index zero. -/
theorem claim_C5_frame_witness :
    headerPreserved (Item.contract exSyncContract)
      (ExpandedItem.contract exSyncContract.header
        [ExpandedMethod.unchanged exSync]) ∧
    (expandedItemMethods
      (ExpandedItem.contract exSyncContract.header
        [ExpandedMethod.unchanged exSync])).length =
      (itemMethods (Item.contract exSyncContract)).length ∧
    (expandedItemMethods
      (ExpandedItem.contract exSyncContract.header
        [ExpandedMethod.unchanged exSync])).get? 0 =
      some (ExpandedMethod.unchanged exSync) :=
  ⟨(claim_C5_frame false (Item.contract exSyncContract)
      (ExpandedItem.contract exSyncContract.header
        [ExpandedMethod.unchanged exSync]) rfl).1,
   (claim_C5_frame false (Item.contract exSyncContract)
      (ExpandedItem.contract exSyncContract.header
        [ExpandedMethod.unchanged exSync]) rfl).2.1,
   (claim_C5_frame false (Item.contract exSyncContract)
      (ExpandedItem.contract exSyncContract.header
        [ExpandedMethod.unchanged exSync]) rfl).2.2 0 exSync rfl rfl⟩

/-- C10: for every accepted input, the token stream emitted by the
attribute holds exactly as many `unsafe` tokens as appear verbatim in
the original method bodies — the rewrite scaffolding introduces no
unsafe code of its own. -/
theorem claim_C10_no_unsafe_introduced (sp : Nat) (args : List String)
    (syn : RawSyntax) (out : ExpandedItem)
    (h : asyncTrait sp args syn = Except.ok out) :
    unsafeCount (renderExpandedItem out) = rawBodyUnsafe syn := by
  unfold asyncTrait at h
  cases hargs : parseArgs sp args with
  | error e => rw [hargs] at h; simp at h
  | ok lf =>
      rw [hargs] at h
      simp only [exceptBindOk] at h
      cases syn with
      | contractDecl c =>
          simp only [parseItem, exceptBindOk] at h
          cases hms : expandMethods lf TypeExpr.selfTy c.methods with
          | error e => simp [expandItem, hms] at h
          | ok es =>
              simp [expandItem, hms] at h
              subst h
              simp [renderExpandedItem, rawBodyUnsafe, unsafeCount_append,
                unsafeCount, unsafeCount_renderWords,
                unsafeCount_expandMethods lf TypeExpr.selfTy c.methods es hms]
      | implDecl im =>
          simp only [parseItem, exceptBindOk] at h
          cases hms : expandMethods lf im.header.selfType im.methods with
          | error e => simp [expandItem, hms] at h
          | ok es =>
              simp [expandItem, hms] at h
              subst h
              cases hc : im.header.contractName with
              | none =>
                  simp [renderExpandedItem, rawBodyUnsafe, hc,
                    unsafeCount_append, unsafeCount, unsafeCount_renderWords,
                    unsafeCount_renderType,
                    unsafeCount_expandMethods lf im.header.selfType im.methods
                      es hms]
              | some cn =>
                  simp [renderExpandedItem, rawBodyUnsafe, hc,
                    unsafeCount_append, unsafeCount, unsafeCount_renderWords,
                    unsafeCount_renderType,
                    unsafeCount_expandMethods lf im.header.selfType im.methods
                      es hms]
      | functionDecl s => simp [parseItem] at h
      | dataTypeDecl s => simp [parseItem] at h
      | otherItem s => simp [parseItem] at h

/-- C10 witness: a concrete accepted contract whose emitted stream holds
exactly the `unsafe` tokens of its original bodies (here none). -/
theorem claim_C10_no_unsafe_introduced_witness :
    unsafeCount (renderExpandedItem
      (ExpandedItem.contract exSyncContract.header
        [ExpandedMethod.unchanged exSync])) =
      rawBodyUnsafe (RawSyntax.contractDecl exSyncContract) :=
  claim_C10_no_unsafe_introduced 0 [] (RawSyntax.contractDecl exSyncContract)
    (ExpandedItem.contract exSyncContract.header
      [ExpandedMethod.unchanged exSync]) rfl

end AsyncTrait
